import Mathlib

/-!
Shallow embedding of the OSRS wiki scraper's parsing core
(`OSRSWikiScraper.py`) and verification of its specification claims.

Strings are modelled as `List Char`; Python dicts as association lists in
insertion order (assignment updates in place, otherwise appends); Python's
`None` results as `Option`.  All functions are total; loops whose index does
not decrease structurally carry a fuel argument that provably dominates the
number of iterations (each iteration consumes at least one character).
-/

namespace OSRS

/-! ## Definitions -/

/-! ### Basic character and string helpers mirroring Python primitives -/

/-- Python whitespace, as matched by `str.strip()` and the regex class `\s`. -/
def isPySpace (c : Char) : Bool :=
  c = ' ' || c = '\t' || c = '\n' || c = '\r' || c = '\x0b' || c = '\x0c'

/-- Python `str.strip()`. -/
def pyStrip (l : List Char) : List Char :=
  ((l.dropWhile isPySpace).reverse.dropWhile isPySpace).reverse

/-- Python `str.lower()` (ASCII, which is all the scraper relies on). -/
def toLowerL (l : List Char) : List Char := l.map Char.toLower

/-- Python `sub in s` substring test. -/
def containsL : List Char → List Char → Bool
  | [], pat => pat.isEmpty
  | h :: t, pat => pat.isPrefixOf (h :: t) || containsL t pat

/-- Substring test on `String`s. -/
def containsS (s sub : String) : Bool := containsL s.toList sub.toList

/-- Python `str.split(sep)` for a one-character separator class: splits at
every matching character, keeping empty pieces, and yields `[""]` on `""`. -/
def splitPred (p : Char → Bool) : List Char → List (List Char)
  | [] => [[]]
  | c :: cs =>
    if p c then [] :: splitPred p cs
    else
      match splitPred p cs with
      | [] => [[c]]
      | x :: xs => (c :: x) :: xs

def splitComma : List Char → List (List Char) := splitPred (fun c => c = ',')

def splitLinesL : List Char → List (List Char) := splitPred (fun c => c = '\n')

/-- `re.split(r'[–-]', value)` splits at every en-dash or hyphen. -/
def splitDash : List Char → List (List Char) :=
  splitPred (fun c => c = '–' || c = '-')

def natOfDigits (l : List Char) : Nat :=
  l.foldl (fun a c => 10 * a + (c.toNat - 48)) 0

/-- `re.search(r'\d+', value)`: the first maximal run of decimal digits. -/
def firstDigitRun : List Char → Option (List Char)
  | [] => none
  | c :: cs =>
    if c.isDigit then some ((c :: cs).takeWhile Char.isDigit)
    else firstDigitRun cs

def hasDoubleUnderscore : List Char → Bool
  | '_' :: '_' :: _ => true
  | _ :: t => hasDoubleUnderscore t
  | [] => false

/-- Body of a Python integer literal: nonempty digits, with single
underscores allowed strictly between digits (CPython `int(str)` rules). -/
def validIntBody (l : List Char) : Bool :=
  !l.isEmpty && l.all (fun c => c.isDigit || c = '_') &&
    l.head? != some '_' && l.getLast? != some '_' && !hasDoubleUnderscore l

/-- Python `int(s)`, returning `none` where CPython raises `ValueError`. -/
def pyInt (l : List Char) : Option Int :=
  match pyStrip l with
  | '+' :: r => if validIntBody r then some ((natOfDigits (r.filter Char.isDigit) : Nat) : Int) else none
  | '-' :: r => if validIntBody r then some (-((natOfDigits (r.filter Char.isDigit) : Nat) : Int)) else none
  | r => if validIntBody r then some ((natOfDigits (r.filter Char.isDigit) : Nat) : Int) else none

/-- `infobox_data.get(key, default)` on a string-valued table. -/
def lookupD (t : List (String × String)) (k d : String) : String :=
  (List.lookup k t).getD d

/-! ### `parse_number` (source lines 368-394) -/

/-- Embedding of `parse_number`: empty check, comma removal, range branch
(`int(parts[-1].strip())`, `None` on `ValueError`), else first digit run. -/
def parse_number (value : String) : Option Int :=
  if value = "" then none
  else
    let v := value.toList.filter (fun c => c ≠ ',')
    if v.contains '–' || v.contains '-' then
      pyInt (pyStrip ((splitDash v).getLastD []))
    else
      match firstDigitRun v with
      | some ds => some ((natOfDigits ds : Nat) : Int)
      | none => none

/-- Written from the words of claim C7: strip commas; if the value contains a
range delimiter, the upper bound of the range (the text after the last
delimiter) parsed as an integer; otherwise the first contiguous digit run;
`none` for empty or non-numeric input. -/
def parseNumberSpec (value : String) : Option Int :=
  let v := value.toList.filter (fun c => c ≠ ',')
  if v.contains '–' || v.contains '-' then
    pyInt (pyStrip ((splitDash v).getLastD []))
  else
    (firstDigitRun v).map (fun ds => ((natOfDigits ds : Nat) : Int))

/-! ### `find_matching_brace` (source lines 86-106) -/

/-- Embedding of the `while` loop of `find_matching_brace`: scans the
remaining characters, tracking the absolute position `pos` and the Python
`depth` counter (an `Int`, since Python's counter may go negative).  On
`'}}'` Python decrements and returns the current offset when the counter
reaches 0, i.e. when `d = 1` just before the decrement.  Python's loop
guard `i < len(text) - 1` stops with one unread character; here that
character falls through the third equation and the empty list returns
`-1`, which is the same result since a lone character matches no pair. -/
def braceScan : List Char → Nat → Int → Int
  | '{' :: '{' :: rest, pos, d => braceScan rest (pos + 2) (d + 1)
  | '}' :: '}' :: rest, pos, d =>
    if d = 1 then (pos : Int) else braceScan rest (pos + 2) (d - 1)
  | _ :: rest, pos, d => braceScan rest (pos + 1) d
  | [], _, _ => -1

/-- Embedding of `find_matching_brace(text, start_pos)`. -/
def find_matching_brace (text : List Char) (start_pos : Nat) : Int :=
  braceScan (text.drop start_pos) start_pos 0

/-- Tokens of the scanner's greedy two-character tokenization: `'{{'`,
`'}}'`, or a single other character. -/
inductive Tok where
  | op : Tok
  | cl : Tok
  | ch : Char → Tok
deriving DecidableEq, Repr

/-- Greedy left-to-right tokenization, exactly as the scanner consumes
its input (two characters for a delimiter pair, one otherwise). -/
def tokenize : List Char → List Tok
  | '{' :: '{' :: rest => Tok.op :: tokenize rest
  | '}' :: '}' :: rest => Tok.cl :: tokenize rest
  | c :: rest => Tok.ch c :: tokenize rest
  | [] => []

def tokWidth : Tok → Nat
  | Tok.op => 2
  | Tok.cl => 2
  | Tok.ch _ => 1

/-- Character width of a token list. -/
def widthT (ts : List Tok) : Nat := (ts.map tokWidth).sum

/-- Properly balanced token sequences: the independent grammar
`B ::= ε | ch B | op B cl B` against which the scanner is verified. -/
inductive Bal : List Tok → Prop where
  | nil : Bal []
  | chr (c : Char) {ts : List Tok} : Bal ts → Bal (Tok.ch c :: ts)
  | pair {t₁ t₂ : List Tok} : Bal t₁ → Bal t₂ →
      Bal (Tok.op :: t₁ ++ Tok.cl :: t₂)

/-- The brace scan replayed on the token stream. -/
def tokScan : List Tok → Nat → Int → Int
  | Tok.op :: ts, pos, d => tokScan ts (pos + 2) (d + 1)
  | Tok.cl :: ts, pos, d =>
    if d = 1 then (pos : Int) else tokScan ts (pos + 2) (d - 1)
  | Tok.ch _ :: ts, pos, d => tokScan ts (pos + 1) d
  | [], _, _ => -1

/-! ### `parse_max_hit` (source lines 396-541) -/

/-- Assoc-list assignment with Python dict semantics: replace in place when
the key exists, otherwise append. -/
def dinsert (k : String) (v : α) : List (String × α) → List (String × α)
  | [] => [(k, v)]
  | (k1, v1) :: t => if k1 = k then (k, v) :: t else (k1, v1) :: dinsert k v t

/-- Python `dict.setdefault(k, v)` (insert only when absent). -/
def dsetdefault (k : String) (v : α) (m : List (String × α)) :
    List (String × α) :=
  if (List.lookup k m).isSome then m else m ++ [(k, v)]

/-- Python `del m[k]` (keys are unique in the maps built here). -/
def derase (k : String) (m : List (String × α)) : List (String × α) :=
  m.filter (fun kv => kv.1 ≠ k)

/-- `re.sub(r'\[\[|\]\]', '', s)`: drop every `[[` and `]]`. -/
def removeBrk : List Char → List Char
  | '[' :: '[' :: cs => removeBrk cs
  | ']' :: ']' :: cs => removeBrk cs
  | c :: cs => c :: removeBrk cs
  | [] => []

/-- Qualifier normalization shared by the `<br>` and comma branches
(source lines 442-454 and 480-491): strip, lowercase, drop link brackets,
then canonicalize by substring tests, else take the first `/` component
and replace spaces with underscores. -/
def canonName (q : List Char) : String :=
  let a := removeBrk (toLowerL (pyStrip q))
  if containsL a ("melee".toList) then "melee"
  else if containsL a ("magic".toList) || containsL a ("mage".toList) then "magic"
  else if containsL a ("ranged".toList) || containsL a ("range".toList) then "ranged"
  else if a.contains '/' then
    String.mk ((pyStrip (a.takeWhile (fun c => c ≠ '/'))).map
      (fun c => if c = ' ' then '_' else c))
  else String.mk (a.map (fun c => if c = ' ' then '_' else c))

/-- One `re.split(r'<br\s*/?>', ·, flags=re.IGNORECASE)` delimiter at the
head of the list: `<br` case-insensitively, greedy whitespace, optional
`/`, then `>`; returns the remainder on success. -/
def matchBr : List Char → Option (List Char)
  | c1 :: c2 :: c3 :: rest =>
    if c1.toLower = '<' && c2.toLower = 'b' && c3.toLower = 'r' then
      match rest.dropWhile isPySpace with
      | '/' :: '>' :: r => some r
      | '>' :: r => some r
      | _ => none
    else none
  | _ => none

/-- Fueled scan for the `<br>` split; every step consumes at least one
character, so fuel `length + 1` never runs out. -/
def splitBrAux : Nat → List Char → List (List Char)
  | 0, l => [l]
  | fuel + 1, l =>
    match matchBr l with
    | some rest => [] :: splitBrAux fuel rest
    | none =>
      match l with
      | [] => [[]]
      | c :: cs =>
        match splitBrAux fuel cs with
        | [] => [[c]]
        | x :: xs => (c :: x) :: xs

def splitBr (l : List Char) : List (List Char) := splitBrAux (l.length + 1) l

/-- The parenthesized qualifier `\(([^)]+)\)` at the head of the list:
`(`, at least one non-`)` character, then `)`. -/
def parenQual : List Char → Option (List Char)
  | '(' :: cs =>
    let inner := cs.takeWhile (fun c => c ≠ ')')
    if inner.isEmpty then none
    else if inner.length < cs.length then some inner
    else none
  | _ => none

/-- `re.search(r'(\d+)\s*(?:\(([^)]+)\))?', part)`: the first digit run
always matches; the qualifier group is optional. -/
def searchNumOptQual : List Char → Option (Nat × Option (List Char))
  | [] => none
  | c :: cs =>
    if c.isDigit then
      let run := (c :: cs).takeWhile Char.isDigit
      let rest := (c :: cs).dropWhile Char.isDigit
      some (natOfDigits run, parenQual (rest.dropWhile isPySpace))
    else searchNumOptQual cs

/-- The alternation `(?:\(\[\[([^\]]+)\]\]\)|\(([^)]+)\))`: the
link-bracketed form is tried first, the plain parenthesized form second
(regex alternation order). -/
def reqQual (l : List Char) : Option (List Char) :=
  match l with
  | '(' :: '[' :: '[' :: cs =>
    let inner := cs.takeWhile (fun c => c ≠ ']')
    if !inner.isEmpty && (']' :: ']' :: ')' :: []).isPrefixOf (cs.drop inner.length) then
      some inner
    else parenQual l
  | _ => parenQual l

/-- `re.search(r'(\d+)\s*(?:\(\[\[([^\]]+)\]\]\)|\(([^)]+)\))', part)`:
digit runs are tried left to right and a match needs a qualifier after the
digits and optional whitespace.  Stepping a single character on failure is
equivalent to skipping the run, because every suffix of a digit run sees
the same tail. -/
def searchNumReqQual : List Char → Option (Nat × List Char)
  | [] => none
  | c :: cs =>
    if c.isDigit then
      let run := (c :: cs).takeWhile Char.isDigit
      let rest := (c :: cs).dropWhile Char.isDigit
      match reqQual (rest.dropWhile isPySpace) with
      | some q => some (natOfDigits run, q)
      | none => searchNumReqQual cs
    else searchNumReqQual cs

/-- `'melee' in style or 'slash' in style or 'crush' in style or 'stab' in style`. -/
def meleeStyle (style : String) : Bool :=
  containsS style "melee" || containsS style "slash" ||
    containsS style "crush" || containsS style "stab"

def magicStyle (style : String) : Bool :=
  containsS style "magic" || containsS style "mage"

def rangedStyle (style : String) : Bool :=
  containsS style "ranged" || containsS style "range"

/-- `fields_to_check` (source lines 410-418). -/
def fieldsToCheck : List (String × Option String) :=
  [("max hit", none), ("maxhit", none), ("max melee", some "melee"),
   ("max magic", some "magic"), ("max ranged", some "ranged"),
   ("max mage", some "magic"), ("max range", some "ranged")]

/-- The `<br>` branch (source lines 428-468): split on `<br/>`, insert
qualified hits as the loop goes, remember the last unqualified hit as the
base value, then distribute the base over the styles named in the
attack-style descriptor via `setdefault` (or file it under `typeless`). -/
def brBranch (style : String) (hasStyle : Bool) (v : List Char)
    (m : List (String × Int)) : List (String × Int) :=
  let parts := ((splitBr v).map pyStrip).filter (fun p => !p.isEmpty)
  let step := parts.foldl (fun (acc : List (String × Int) × Option Int) p =>
    match searchNumOptQual p with
    | none => acc
    | some (n, none) => (acc.1, some ((n : Nat) : Int))
    | some (n, some q) => (dinsert (canonName q) ((n : Nat) : Int) acc.1, acc.2))
    (m, none)
  match step.2 with
  | none => step.1
  | some b =>
    if hasStyle && !containsS style "typeless" then
      let a1 := if meleeStyle style then dsetdefault "melee" b step.1 else step.1
      let a2 := if magicStyle style then dsetdefault "magic" b a1 else a1
      if rangedStyle style then dsetdefault "ranged" b a2 else a2
    else dsetdefault "typeless" b step.1

/-- The comma/link branch (source lines 471-505): split on commas; a
qualified segment is inserted; an unqualified numeric segment is accepted
only while the whole map is still empty. -/
def commaBranch (style : String) (hasStyle : Bool) (v : List Char)
    (m : List (String × Int)) : List (String × Int) :=
  (splitComma v).foldl (fun acc p0 =>
    let p := pyStrip p0
    match searchNumReqQual p with
    | some (n, q) => dinsert (canonName q) ((n : Nat) : Int) acc
    | none =>
      match firstDigitRun p with
      | some ds =>
        if acc.isEmpty then
          if hasStyle && !containsS style "typeless" then
            let a1 := if meleeStyle style then
              dsetdefault "melee" ((natOfDigits ds : Nat) : Int) acc else acc
            let a2 := if magicStyle style then
              dsetdefault "magic" ((natOfDigits ds : Nat) : Int) a1 else a1
            if rangedStyle style then
              dsetdefault "ranged" ((natOfDigits ds : Nat) : Int) a2 else a2
          else dinsert "typeless" ((natOfDigits ds : Nat) : Int) acc
        else acc
      | none => acc) m

/-- The simple branch (source lines 506-526): a plain `parse_number` value,
assigned to every style named in the descriptor (plus the field's own
attack type), or to `typeless`/`default` when the descriptor is typeless
or blank. -/
def simpleBranch (style : String) (hasStyle : Bool) (atype : Option String)
    (v : List Char) (m : List (String × Int)) : List (String × Int) :=
  match parse_number (String.mk v) with
  | none => m
  | some hv =>
    if hasStyle && !containsS style "typeless" then
      let a1 := if meleeStyle style then dinsert "melee" hv m else m
      let a2 := if magicStyle style then dinsert "magic" hv a1 else a1
      let a3 := if rangedStyle style then dinsert "ranged" hv a2 else a2
      match atype with
      | some a => dinsert a hv a3
      | none => a3
    else
      if containsS style "typeless" then dinsert "typeless" hv m
      else dinsert "default" hv m

/-- One iteration of `for field_name, attack_type in fields_to_check`
(source lines 420-526). -/
def processMaxHitField (style : String) (hasStyle : Bool)
    (t : List (String × String)) (m : List (String × Int))
    (fc : String × Option String) : List (String × Int) :=
  match List.lookup fc.1 t with
  | none => m
  | some v =>
    if containsL (toLowerL v.toList) ("<br".toList) then
      brBranch style hasStyle v.toList m
    else if containsL v.toList ("[[".toList) || containsL v.toList ("),".toList) then
      commaBranch style hasStyle v.toList m
    else
      simpleBranch style hasStyle fc.2 v.toList m

/-- `attack_style = infobox_data.get('attack style', '').lower()`. -/
def styleOf (t : List (String × String)) : String :=
  String.mk (toLowerL (lookupD t "attack style" "").toList)

/-- `has_attack_style = bool(attack_style.strip())`. -/
def hasStyleB (style : String) : Bool := !(pyStrip style.toList).isEmpty

/-- The max-hit map accumulated by the field loop, before the final
default cleanup. -/
def maxHitsPre (t : List (String × String)) : List (String × Int) :=
  fieldsToCheck.foldl (processMaxHitField (styleOf t) (hasStyleB (styleOf t)) t) []

/-- The `# Final cleanup` block (source lines 529-538). -/
def maxHitCleanup (style : String) (hasStyle : Bool)
    (m : List (String × Int)) : List (String × Int) :=
  match List.lookup "default" m with
  | some dv =>
    if hasStyle && !containsS style "typeless" && 1 < m.length then
      let m1 := derase "default" m
      let m2 := if meleeStyle style then dsetdefault "melee" dv m1 else m1
      let m3 := if magicStyle style then dsetdefault "magic" dv m2 else m2
      if rangedStyle style then dsetdefault "ranged" dv m3 else m3
    else m
  | none => m

/-- Embedding of `parse_max_hit(infobox_data)`: the field loop followed by
the final default cleanup. -/
def parse_max_hit (t : List (String × String)) : List (String × Int) :=
  maxHitCleanup (styleOf t) (hasStyleB (styleOf t)) (maxHitsPre t)

/-- The redistribution step as the amended claim C4 words it: the generic
value is offered, without overwriting, to each canonical style named in
the attack-style descriptor, and the `default` key is removed. -/
def redistributeDefault (style : String) (dv : Int)
    (m : List (String × Int)) : List (String × Int) :=
  let m1 := derase "default" m
  let m2 := if meleeStyle style then dsetdefault "melee" dv m1 else m1
  let m3 := if magicStyle style then dsetdefault "magic" dv m2 else m2
  if rangedStyle style then dsetdefault "ranged" dv m3 else m3

/-! ### `parse_attributes` (source lines 543-573) -/

def attributeFields : List String := ["attributes", "attribute", "cat"]

def knownAttributes : List String :=
  ["demon", "dragon", "undead", "fiery", "leafy", "vampyre",
   "kalphite", "shade", "xerician", "golem", "tzhaar"]

/-- Comma-split, stripped, non-empty parts of the lowercased free-text
attribute fields, concatenated in field order (source lines 553-559). -/
def freeAttrParts (t : List (String × String)) : List String :=
  attributeFields.foldl (fun acc f =>
    match List.lookup f t with
    | some v => acc ++ (((splitComma (toLowerL v.toList)).map pyStrip).filterMap
        (fun p => if p.isEmpty then none else some (String.mk p)))
    | none => acc) []

/-- `value.lower() in ['yes', 'true', '1']`. -/
def truthyYes (v : String) : Bool :=
  let lv := String.mk (toLowerL v.toList)
  lv = "yes" || lv = "true" || lv = "1"

/-- One iteration of the known-flag loop of `parse_attributes` (source
lines 567-571): append the flag when its field is present, truthy, and
the flag is not already in the list. -/
def attrStep (t : List (String × String)) (acc : List String) (a : String) :
    List String :=
  match List.lookup a t with
  | some v => if truthyYes v && !acc.contains a then acc ++ [a] else acc
  | none => acc

/-- Embedding of `parse_attributes`: free-text parts first, then each
known boolean flag appended when truthy and not already present (source
lines 561-572). -/
def parse_attributes (t : List (String × String)) : List String :=
  knownAttributes.foldl (attrStep t) (freeAttrParts t)

/-- Whether a known flag's field is present and truthy. -/
def attrTruthy (t : List (String × String)) (a : String) : Bool :=
  match List.lookup a t with
  | some v => truthyYes v
  | none => false

/-- The union as the amended claim C10 words it: the comma-split values
(duplicates retained) followed by the truthy known flags not already
among them. -/
def attributesSpec (t : List (String × String)) : List String :=
  freeAttrParts t ++ knownAttributes.filter (fun a =>
    attrTruthy t a && !(freeAttrParts t).contains a)

/-! ### `parse_immunities` and `parse_venom_type` (source lines 575-625) -/

def immunityMappings : List (String × String) :=
  [("immunepoison", "poison"), ("immunevenom", "venom"),
   ("immunecannon", "cannon"), ("immunethrall", "thrall"),
   ("poison immune", "poison"), ("venom immune", "venom"),
   ("cannon immune", "cannon"), ("thrall immune", "thrall")]

/-- `value.lower() in ['yes', 'true', '1', 'immune']`. -/
def truthyImmune (v : String) : Bool :=
  let lv := String.mk (toLowerL v.toList)
  lv = "yes" || lv = "true" || lv = "1" || lv = "immune"

/-- Assoc update that only overwrites an existing key (the immunity dict
is preset with all four flags). -/
def dupdate (k : String) (v : α) : List (String × α) → List (String × α)
  | [] => []
  | (k1, v1) :: t => if k1 = k then (k, v) :: t else (k1, v1) :: dupdate k v t

def parse_immunities (t : List (String × String)) : List (String × Bool) :=
  immunityMappings.foldl (fun acc m =>
    match List.lookup m.1 t with
    | some v => if truthyImmune v then dupdate m.2 true acc else acc
    | none => acc)
    [("poison", false), ("venom", false), ("cannon", false), ("thrall", false)]

def parse_venom_type (t : List (String × String)) : Option String :=
  if truthyYes (lookupD t "poisonous" "") then
    if truthyYes (lookupD t "venom" "") then some "venom" else some "poison"
  else if truthyYes (lookupD t "venom" "") then some "venom"
  else none

/-! ### `clean_wiki_text` (source lines 343-366) -/

/-- The suffix just after the first occurrence of `pat`, if any. -/
def afterSub (pat : List Char) : List Char → Option (List Char)
  | [] => if pat.isEmpty then some [] else none
  | c :: cs =>
    if pat.isPrefixOf (c :: cs) then some ((c :: cs).drop pat.length)
    else afterSub pat cs

/-- One `<ref[^>]*>.*?</ref>` match at the head of the list: `<ref`, any
non-`>` characters, `>`, then lazily anything up to the first `</ref>`. -/
def matchRef (l : List Char) : Option (List Char) :=
  match l with
  | '<' :: 'r' :: 'e' :: 'f' :: rest =>
    let tag := rest.takeWhile (fun c => c ≠ '>')
    match rest.drop tag.length with
    | '>' :: body => afterSub ("</ref>".toList) body
    | _ => none
  | _ => none

/-- One `<!--.*?-->` match at the head of the list. -/
def matchComment (l : List Char) : Option (List Char) :=
  match l with
  | '<' :: '!' :: '-' :: '-' :: rest => afterSub ("-->".toList) rest
  | _ => none

/-- `re.sub(pattern, '', text)`: fueled left-to-right scan removing
non-overlapping matches; each step consumes at least one character, so
fuel `length + 1` never runs out. -/
def removeAll (matcher : List Char → Option (List Char)) :
    Nat → List Char → List Char
  | 0, l => l
  | fuel + 1, l =>
    match matcher l with
    | some rest => removeAll matcher fuel rest
    | none =>
      match l with
      | [] => []
      | c :: cs => c :: removeAll matcher fuel cs

/-- `re.sub(r'\s+', ' ', text)`: collapse every whitespace run to one
space. -/
def squeezeWs : List Char → List Char
  | [] => []
  | [c] => [if isPySpace c then ' ' else c]
  | a :: b :: cs =>
    if isPySpace a && isPySpace b then squeezeWs (b :: cs)
    else (if isPySpace a then ' ' else a) :: squeezeWs (b :: cs)

/-- Embedding of `clean_wiki_text`: drop `<ref>...</ref>` spans, drop HTML
comments, collapse whitespace, strip (the link-bracket and template
removals are commented out in the source). -/
def clean_wiki_text (s : String) : String :=
  let l1 := removeAll matchRef (s.toList.length + 1) s.toList
  let l2 := removeAll matchComment (l1.length + 1) l1
  String.mk (pyStrip (squeezeWs l2))

/-! ### Field table builder (source lines 250-264) -/

/-- `line.split('=', 1)`: the parts around the first `=`, when present. -/
def splitEqOnce (l : List Char) : Option (List Char × List Char) :=
  if l.contains '=' then
    some (l.takeWhile (fun c => c ≠ '='),
      (l.dropWhile (fun c => c ≠ '=')).drop 1)
  else none

/-- The `raw_data` dict of `parse_infobox_content`: per line, strip; when
it starts with `|`, drop the marker, strip, split at the first `=` and
assign the stripped key/value (last write wins, insertion order kept). -/
def buildRawData (content : List Char) : List (String × String) :=
  (splitLinesL content).foldl (fun acc line =>
    let l := pyStrip line
    match l with
    | '|' :: rest =>
      let l2 := pyStrip rest
      match splitEqOnce l2 with
      | some (k, v) =>
        dinsert (String.mk (pyStrip k)) (String.mk (pyStrip v)) acc
      | none => acc
    | _ => acc) []

/-! ### Version splitter (source lines 280-338) -/

/-- The result of a Python computation that may raise an uncaught
exception (`exn` models a `ValueError` escaping the parsing core). -/
inductive PyResult (α : Type) where
  | ok : α → PyResult α
  | exn : PyResult α
deriving DecidableEq, Repr

def PyResult.map (f : α → β) : PyResult α → PyResult β
  | PyResult.ok a => PyResult.ok (f a)
  | PyResult.exn => PyResult.exn

/-- Python `str.isdigit()` per character.  It accepts the decimal digits
and every character with `Numeric_Type=Digit`; the model covers ASCII
plus the Latin-1 superscripts (the full Unicode set is larger, but these
already witness that `isdigit` accepts characters `int()` rejects). -/
def pyIsdigit (c : Char) : Bool :=
  c.isDigit || c = '¹' || c = '²' || c = '³'

/-- `key.startswith('version') and len(key) > 7 and key[7:].isdigit()`
(source lines 281 and 288).  This guard alone cannot fail. -/
def isVersionKey (k : String) : Bool :=
  let suf := k.toList.drop 7
  ("version".toList).isPrefixOf k.toList && !suf.isEmpty && suf.all pyIsdigit

/-- `int(key[7:])` (source line 289) on an isdigit-passing suffix: CPython
accepts exactly the decimal digits, so a suffix containing a superscript
digit raises `ValueError`, modelled as `none`. -/
def intOfSuffix (k : String) : Option Nat :=
  let suf := k.toList.drop 7
  if suf.all Char.isDigit then some (natOfDigits suf) else none

def hasVersions (raw : List (String × String)) : Bool :=
  raw.any (fun kv => isVersionKey kv.1)

/-- The `version_numbers` collection loop (source lines 286-290), in key
order with duplicates (Python adds them to a `set`): the first version
key whose suffix `int()` rejects raises, aborting the whole parse. -/
def collectNumsE : List (String × String) → Option (List Nat)
  | [] => some []
  | kv :: t =>
    if isVersionKey kv.1 then
      match intOfSuffix kv.1 with
      | some n => (collectNumsE t).map (fun l => n :: l)
      | none => none
    else collectNumsE t

/-- `sorted(version_numbers)`: the set is modelled as `dedup` followed by
an arbitrary enumeration order `reorder` (`id` canonically); `sorted` is
insertion sort.  `none` propagates the `ValueError` of the collection
loop. -/
def versionNumsWithE (reorder : List Nat → List Nat)
    (raw : List (String × String)) : Option (List Nat) :=
  (collectNumsE raw).map (fun l => List.insertionSort (· ≤ ·) (reorder l.dedup))

/-- A value in a `version_data` dict: a string field or the integer
`versionNumber`. -/
inductive VVal where
  | s : String → VVal
  | n : Nat → VVal
deriving DecidableEq, Repr

abbrev VersionData := List (String × VVal)

/-- Python `str.endswith`. -/
def endsWithS (s suf : String) : Bool := suf.toList.isSuffixOf s.toList

/-- `key[:-len(suffix)]`. -/
def dropSuffixS (s suf : String) : String :=
  String.mk (s.toList.take (s.toList.length - suf.toList.length))

/-- The per-key body of the multi-version loop (source lines 302-318),
with the source's branch order: skip the version-name keys; a key ending
with this version's number is stripped and stored; a key whose suffix
matches no registered version number is copied as-is; anything else is
skipped. -/
def versionStep (vn bn : String) (nums : List Nat) (n : Nat)
    (acc : VersionData) (kv : String × String) : VersionData :=
  if kv.1 = vn || kv.1 = bn then acc
  else if endsWithS kv.1 (Nat.repr n) then
    dinsert (dropSuffixS kv.1 (Nat.repr n)) (VVal.s (clean_wiki_text kv.2)) acc
  else if !(nums.any (fun v => endsWithS kv.1 (Nat.repr v))) then
    dinsert kv.1 (VVal.s (clean_wiki_text kv.2)) acc
  else acc

/-- One `version_data` dict of the multi-version branch (source lines
295-318): `versionNumber`, `versionName` (the raw `version{N}` value, or
a fallback), `bucketName`, then the per-key loop. -/
def buildVersion (raw : List (String × String)) (nums : List Nat)
    (n : Nat) : VersionData :=
  let vn := "version" ++ Nat.repr n
  let bn := "bucketname" ++ Nat.repr n
  let vname := lookupD raw vn ("Version " ++ Nat.repr n)
  let bname := lookupD raw bn vname
  raw.foldl (versionStep vn bn nums n)
    [("versionNumber", VVal.n n), ("versionName", VVal.s vname),
     ("bucketName", VVal.s bname)]

/-- The single-version branch (source lines 330-338): all fields cleaned,
then `versionNumber = 1` and `versionName = get('name', 'Default')`. -/
def buildSingle (raw : List (String × String)) : VersionData :=
  let vd := raw.foldl
    (fun acc kv => dinsert kv.1 (VVal.s (clean_wiki_text kv.2)) acc) []
  let vd2 := dinsert "versionNumber" (VVal.n 1) vd
  let nm := match List.lookup "name" vd2 with
    | some (VVal.s s) => s
    | _ => "Default"
  dinsert "versionName" (VVal.s nm) vd2

/-- The versions list of one infobox (source lines 284-338); `exn`
propagates the `ValueError` of the version-number collection. -/
def versionsOfTableWithE (reorder : List Nat → List Nat)
    (raw : List (String × String)) : PyResult (List VersionData) :=
  if hasVersions raw then
    match versionNumsWithE reorder raw with
    | some nums => PyResult.ok (nums.map (buildVersion raw nums))
    | none => PyResult.exn
  else PyResult.ok [buildSingle raw]

/-- A parsed infobox: an optional phase label and its version records. -/
structure Infobox where
  phaseLabel : Option String
  versions : List VersionData
deriving DecidableEq, Repr

/-- Embedding of `parse_infobox_content(content, phase_label)`; the inner
`none` mirrors `return data if data['versions'] else None`, the outer
`exn` an escaping `ValueError`. -/
def parse_infobox_content_with (reorder : List Nat → List Nat)
    (content : List Char) (phase : Option String) :
    PyResult (Option Infobox) :=
  let raw := buildRawData content
  match versionsOfTableWithE reorder raw with
  | PyResult.ok versions =>
    PyResult.ok (if versions.isEmpty then none
      else some { phaseLabel := phase, versions := versions })
  | PyResult.exn => PyResult.exn

def parse_infobox_content (content : List Char) (phase : Option String) :
    PyResult (Option Infobox) :=
  parse_infobox_content_with id content phase

/-! ### Container resolver: `parse_infobox_monster` (source lines 108-240) -/

/-- Case-insensitive prefix test (the fixed markers are ASCII). -/
def isPrefixCI : List Char → List Char → Bool
  | [], _ => true
  | _ :: _, [] => false
  | p :: ps, h :: hs => p.toLower = h.toLower && isPrefixCI ps hs

/-- `re.search` of a fixed literal with `re.IGNORECASE`: index of the
first case-insensitive occurrence. -/
def findCI (pat : List Char) : List Char → Option Nat
  | [] => if pat.isEmpty then some 0 else none
  | c :: cs =>
    if isPrefixCI pat (c :: cs) then some 0
    else (findCI pat cs).map (· + 1)

/-- Python slice `l[a:b]`. -/
def sliceL (l : List Char) (a b : Nat) : List Char := (l.drop a).take (b - a)

def multiMarker : List Char := "\x7b\x7bMulti Infobox".toList

def infoboxMarker : List Char := "\x7b\x7bInfobox Monster".toList

/-- One match of `r'\|text\d*\s*=\s*([^\n]+)'` at the head of `l`:
returns the stripped group and the characters consumed by the whole
match.  The second `\s*` is greedy across newlines; when only whitespace
remains to the end of the buffer the regex backtracks, making the group
the last non-newline whitespace character (which strips to the empty
label). -/
def matchTextAt (l : List Char) : Option (String × Nat) :=
  match l with
  | '|' :: r1 =>
    if ("text".toList).isPrefixOf r1 then
      let r2 := r1.drop 4
      let ds := r2.takeWhile Char.isDigit
      let r3 := r2.drop ds.length
      let w1 := r3.takeWhile isPySpace
      let r4 := r3.drop w1.length
      match r4 with
      | '=' :: r5 =>
        let w2 := r5.takeWhile isPySpace
        let r6 := r5.drop w2.length
        if r6.isEmpty then
          match w2.reverse.dropWhile (fun c => c = '\n') with
          | [] => none
          | c :: back =>
            some (String.mk (pyStrip [c]),
              1 + 4 + ds.length + w1.length + 1 + (back.length + 1))
        else
          let grp := r6.takeWhile (fun c => c ≠ '\n')
          some (String.mk (pyStrip grp),
            1 + 4 + ds.length + w1.length + 1 + w2.length + grp.length)
      | _ => none
    else none
  | _ => none

/-- One match of `r'\|item\d*\s*='` at the head of `l`: consumed length
only (the pairing logic uses start and end offsets). -/
def matchItemAt (l : List Char) : Option (Unit × Nat) :=
  match l with
  | '|' :: r1 =>
    if ("item".toList).isPrefixOf r1 then
      let r2 := r1.drop 4
      let ds := r2.takeWhile Char.isDigit
      let r3 := r2.drop ds.length
      let w1 := r3.takeWhile isPySpace
      let r4 := r3.drop w1.length
      match r4 with
      | '=' :: _ => some ((), 1 + 4 + ds.length + w1.length + 1)
      | _ => none
    else none
  | _ => none

/-- `finditer`: non-overlapping matches left to right, resuming after
each match; yields (start, payload, length).  Every step consumes at
least one character, so fuel `length + 1` suffices. -/
def finditerAux (m : List Char → Option (α × Nat)) :
    Nat → Nat → List Char → List (Nat × α × Nat)
  | 0, _, _ => []
  | fuel + 1, pos, l =>
    match m l with
    | some (a, len) => (pos, a, len) :: finditerAux m fuel (pos + len) (l.drop len)
    | none =>
      match l with
      | [] => []
      | _ :: cs => finditerAux m fuel (pos + 1) cs

def finditer (m : List Char → Option (α × Nat)) (l : List Char) :
    List (Nat × α × Nat) :=
  finditerAux m (l.length + 1) 0 l

/-- One `item` slot of a Multi Infobox (source lines 149-198): label is
the closest preceding `text` match; the slot's span runs to the next item
marker, else (when further text labels remain) to the next text marker
after this item, else to the end of the container; the first record
marker inside the span is scanned and parsed. -/
def processItem (reorder : List Nat → List Nat) (multiContent : List Char)
    (texts : List (Nat × String × Nat)) (items : List (Nat × Unit × Nat))
    (i : Nat) (itm : Nat × Unit × Nat) : PyResult (Option Infobox) :=
  let itemStart := itm.1 + itm.2.2
  let textLabel := (texts.reverse.find? (fun tm => tm.1 < itm.1)).map
    (fun tm => tm.2.1)
  let nextPos :=
    match items.drop (i + 1) with
    | itm2 :: _ => itm2.1
    | [] =>
      if i < texts.length - 1 then
        match texts.find? (fun tm => itm.1 < tm.1) with
        | some tm => tm.1
        | none => multiContent.length
      else multiContent.length
  let sect := sliceL multiContent itemStart nextPos
  match findCI infoboxMarker sect with
  | some ibStart =>
    let e := find_matching_brace sect ibStart
    if e = -1 then PyResult.ok none
    else
      parse_infobox_content_with reorder
        (sliceL sect (ibStart + infoboxMarker.length) e.toNat) textLabel
  | none => PyResult.ok none

/-- The `for i, item_match in ...` loop over the slots (source lines
149-198): parsed infoboxes are appended in order; an exception raised
while parsing any slot aborts the whole call, discarding earlier
results, exactly as in Python. -/
def collectItems (reorder : List Nat → List Nat) (multiContent : List Char)
    (texts : List (Nat × String × Nat)) (items : List (Nat × Unit × Nat)) :
    List (Nat × (Nat × Unit × Nat)) → PyResult (List Infobox)
  | [] => PyResult.ok []
  | p :: rest =>
    match processItem reorder multiContent texts items p.1 p.2 with
    | PyResult.exn => PyResult.exn
    | PyResult.ok none => collectItems reorder multiContent texts items rest
    | PyResult.ok (some ib) =>
      (collectItems reorder multiContent texts items rest).map
        (fun l => ib :: l)

/-- The standalone scan (source lines 206-237): find each record marker
case-insensitively, scan to its closer, parse, resume after the closer;
an unmatched opener stops the scan, and an exception from the content
parse aborts the whole call.  Each iteration moves the position at least
two characters forward, so fuel `length + 1` suffices. -/
def standaloneStep (reorder : List Nat → List Nat) (wikiText : List Char)
    (pos : Nat) (rec : Nat → PyResult (List Infobox)) :
    PyResult (List Infobox) :=
  match findCI infoboxMarker (wikiText.drop pos) with
  | none => PyResult.ok []
  | some off =>
    let mStart := pos + off
    let e := find_matching_brace wikiText mStart
    if e = -1 then PyResult.ok []
    else
      match parse_infobox_content_with reorder
          (sliceL wikiText (mStart + infoboxMarker.length) e.toNat) none with
      | PyResult.exn => PyResult.exn
      | PyResult.ok ob =>
        (rec (e.toNat + 2)).map
          (fun l => (match ob with
            | some ib => [ib]
            | none => []) ++ l)

def standaloneScan (reorder : List Nat → List Nat) (wikiText : List Char) :
    Nat → Nat → PyResult (List Infobox)
  | 0, _ => PyResult.ok []
  | fuel + 1, pos =>
    standaloneStep reorder wikiText pos
      (standaloneScan reorder wikiText fuel)

/-- Embedding of `parse_infobox_monster(wiki_text)`: the Multi Infobox
branch when its marker is present (standalone is not attempted then, even
if the container is unmatched), else the standalone scan. -/
def parse_infobox_monster_with (reorder : List Nat → List Nat)
    (wikiText : List Char) : PyResult (List Infobox) :=
  match findCI multiMarker wikiText with
  | some mStart =>
    let e := find_matching_brace wikiText mStart
    if e = -1 then PyResult.ok []
    else
      let multiContent := sliceL wikiText (mStart + multiMarker.length) e.toNat
      let texts := finditer matchTextAt multiContent
      let items := finditer matchItemAt multiContent
      collectItems reorder multiContent texts items items.enum
  | none => standaloneScan reorder wikiText (wikiText.length + 1) 0

def parse_infobox_monster (wikiText : List Char) : PyResult (List Infobox) :=
  parse_infobox_monster_with id wikiText

/-! ### Record assembler: `extract_npc_data` (source lines 627-774) -/

/-- A value of an `npc_data` field. -/
inductive Val where
  | vstr : String → Val
  | vint : Int → Val
  | vnone : Val
  | vbool : Bool → Val
  | vmap : List (String × Int) → Val
  | vlist : List String → Val
  | vflags : List (String × Bool) → Val
deriving DecidableEq, Repr

/-- The string-valued fields of a version record, in order.  The only
integer entry is `versionNumber`, which none of the field interpreters
reads, so handing them this projection is faithful. -/
def strFields (vd : VersionData) : List (String × String) :=
  vd.filterMap (fun kv =>
    match kv.2 with
    | VVal.s v => some (kv.1, v)
    | VVal.n _ => none)

/-- `version_data.get(key, default)` for the string-typed reads (all the
keys read this way hold strings). -/
def vget (vd : VersionData) (k d : String) : String :=
  match List.lookup k vd with
  | some (VVal.s v) => v
  | _ => d

def toLowerS (s : String) : String := String.mk (toLowerL s.toList)

/-- `full_name` construction (source lines 687-703). -/
def buildFullName (pageTitle : String) (phase : Option String)
    (vd : VersionData) : String :=
  let baseName := vget vd "name" pageTitle
  let versionName := vget vd "versionName" ""
  let bucketName := vget vd "bucketName" versionName
  let phaseTruthy := match phase with
    | some p => !(p = "")
    | none => false
  let parts1 : List String := [baseName]
  let parts2 :=
    match phase with
    | some p =>
      if !(p = "") && !containsS (toLowerS baseName) (toLowerS p) then
        parts1 ++ ["(" ++ p ++ ")"]
      else parts1
    | none => parts1
  let parts3 :=
    if bucketName ≠ "" && bucketName ≠ baseName &&
        (!phaseTruthy || (match phase with
          | some p => !(toLowerS bucketName = toLowerS p)
          | none => true)) then
      let constructed := String.intercalate " " parts2
      if !containsS (toLowerS constructed) (toLowerS bucketName) then
        parts2 ++ ["- " ++ bucketName]
      else parts2
    else parts2
  String.intercalate " " parts3

def optIntVal (o : Option Int) : Val :=
  match o with
  | some n => Val.vint n
  | none => Val.vnone

/-- The `npc_data` dict (source lines 709-761), in source order. -/
def npcFields (pageTitle : String) (phase : Option String)
    (vd : VersionData) (maxHits : List (String × Int)) :
    List (String × Val) :=
  let t := strFields vd
  [("name", Val.vstr (buildFullName pageTitle phase vd)),
   ("baseName", Val.vstr (vget vd "name" pageTitle)),
   ("phase", match phase with | some p => Val.vstr p | none => Val.vnone),
   ("version", Val.vstr (vget vd "bucketName" (vget vd "versionName" ""))),
   ("id", Val.vstr (vget vd "id" "")),
   ("combatLevel", optIntVal (parse_number (vget vd "combat" ""))),
   ("hitpoints", optIntVal (parse_number (vget vd "hitpoints" ""))),
   ("size", optIntVal (parse_number (vget vd "size" ""))),
   ("maxHit", Val.vmap maxHits),
   ("minHit", Val.vmap (maxHits.map (fun kv => (kv.1, (0 : Int))))),
   ("attackSpeed", optIntVal (parse_number (vget vd "attack speed" ""))),
   ("attackStyle", Val.vstr (vget vd "attack style" "")),
   ("aggressive", Val.vbool (toLowerS (vget vd "aggressive" "") = "yes")),
   ("poisonous", Val.vbool (toLowerS (vget vd "poisonous" "") = "yes")),
   ("venomType", match parse_venom_type t with
     | some v => Val.vstr v
     | none => Val.vnone),
   ("attributes", Val.vlist (parse_attributes t)),
   ("immunities", Val.vflags (parse_immunities t)),
   ("attackLevel", optIntVal (parse_number (vget vd "att" ""))),
   ("strengthLevel", optIntVal (parse_number (vget vd "str" ""))),
   ("defenceLevel", optIntVal (parse_number (vget vd "def" ""))),
   ("magicLevel", optIntVal (parse_number (vget vd "mage" ""))),
   ("rangedLevel", optIntVal (parse_number (vget vd "range" ""))),
   ("stabDefence", optIntVal (parse_number (vget vd "dstab" ""))),
   ("slashDefence", optIntVal (parse_number (vget vd "dslash" ""))),
   ("crushDefence", optIntVal (parse_number (vget vd "dcrush" ""))),
   ("magicDefence", optIntVal (parse_number (vget vd "dmagic" ""))),
   ("rangedDefence", optIntVal (parse_number (vget vd "drange" ""))),
   ("attackBonus", optIntVal (parse_number (vget vd "astab" ""))),
   ("strengthBonus", optIntVal (parse_number (vget vd "astr" ""))),
   ("rangedAttackBonus", optIntVal (parse_number (vget vd "arange" ""))),
   ("magicAttackBonus", optIntVal (parse_number (vget vd "amagic" ""))),
   ("slayerLevel", optIntVal (parse_number (vget vd "slaylvl" ""))),
   ("slayerXp", optIntVal (parse_number (vget vd "slayxp" ""))),
   ("wikiPage", Val.vstr pageTitle),
   ("examine", Val.vstr (vget vd "examine" ""))]

/-- The record-cleaning test `v is not None and v != ''` (source lines
763-769).  In Python a list or dict never equals `''`, so empty
containers are KEPT; the `elif` branch for containers is unreachable. -/
def keepField (v : Val) : Bool :=
  match v with
  | Val.vnone => false
  | Val.vstr s => !(s = "")
  | _ => true

def cleanFields (l : List (String × Val)) : List (String × Val) :=
  l.filter (fun kv => keepField kv.2)

/-- One version's output record (source lines 652-772): skipped when the
parsed max-hit map is empty, else the cleaned `npc_data`. -/
def emitRecord (pageTitle : String) (phase : Option String)
    (vd : VersionData) : Option (List (String × Val)) :=
  let mh := parse_max_hit (strFields vd)
  if mh.isEmpty then none
  else some (cleanFields (npcFields pageTitle phase vd mh))

/-- Embedding of `extract_npc_data(page_title, wiki_text)`: the field
interpreters and the record assembly are total (every fallible Python
operation in them is guarded exactly as in the source), so the only
exception source is the version splitter, propagated from
`parse_infobox_monster`. -/
def extract_npc_data_with (reorder : List Nat → List Nat)
    (pageTitle : String) (wikiText : List Char) :
    PyResult (List (List (String × Val))) :=
  (parse_infobox_monster_with reorder wikiText).map (fun ibs =>
    ibs.flatMap (fun ib =>
      ib.versions.filterMap (emitRecord pageTitle ib.phaseLabel)))

def extract_npc_data (pageTitle : String) (wikiText : List Char) :
    PyResult (List (List (String × Val))) :=
  extract_npc_data_with id pageTitle wikiText

/-! ### The identity key of `scrape_all_npcs` (source lines 804-820) -/

def pyReplace (a b : Char) (s : String) : String :=
  String.mk (s.toList.map (fun c => if c = a then b else c))

def pyRemove (a : Char) (s : String) : String :=
  String.mk (s.toList.filter (fun c => c ≠ a))

/-- `npc_data.get(key, default)` on a cleaned record. -/
def vrecGet (npc : List (String × Val)) (k d : String) : String :=
  match List.lookup k npc with
  | some (Val.vstr s) => s
  | _ => d

/-- The unique key under which `scrape_all_npcs` stores a record. -/
def uniqueKey (pageTitle : String) (npc : List (String × Val)) : String :=
  let ids := vrecGet npc "id" ""
  let name := vrecGet npc "name" pageTitle
  let version := vrecGet npc "version" ""
  let phase := vrecGet npc "phase" ""
  if !(ids = "") then
    let primary := String.mk (pyStrip ((splitComma ids.toList).headD []))
    if !(version = "") || !(phase = "") then
      pyReplace '-' '_'
        (pyReplace ' ' '_' (primary ++ "_" ++ version ++ "_" ++ phase))
    else primary
  else
    pyReplace '-' '_' (pyRemove ')' (pyRemove '(' (pyReplace ' ' '_' name)))

/-- Sample page used by concrete witnesses: one well-formed record. -/
def sampleText : List Char := "\x7b\x7bInfobox Monster\n|max hit=5\n\x7d\x7d".toList

/-- Sample malformed page: a record opener with no matching closer. -/
def malformedText : List Char := "\x7b\x7bInfobox Monster\n|max hit=5".toList

/-- Page whose version key has a superscript suffix: `'²'.isdigit()` is
true, so the guard at source line 288 passes, and `int('²')` at line 289
raises `ValueError`. -/
def crashText : List Char :=
  "\x7b\x7bInfobox Monster\n|version²=A\n\x7d\x7d".toList

/-- The single record the sample page extracts to (used by concrete
witnesses). -/
def sampleRecord : List (String × Val) :=
  [("name", Val.vstr "T - Default"),
   ("baseName", Val.vstr "T"),
   ("version", Val.vstr "Default"),
   ("maxHit", Val.vmap [("default", 5)]),
   ("minHit", Val.vmap [("default", 0)]),
   ("aggressive", Val.vbool false),
   ("poisonous", Val.vbool false),
   ("attributes", Val.vlist []),
   ("immunities", Val.vflags [("poison", false), ("venom", false),
     ("cannon", false), ("thrall", false)]),
   ("wikiPage", Val.vstr "T")]

/-! ## Theorems -/

theorem widthT_nil : widthT [] = 0 := rfl

theorem widthT_cons (t : Tok) (ts : List Tok) :
    widthT (t :: ts) = tokWidth t + widthT ts := by
  simp [widthT]

theorem widthT_append (a b : List Tok) :
    widthT (a ++ b) = widthT a + widthT b := by
  simp [widthT]

theorem widthT_block (a b : List Tok) :
    widthT (Tok.op :: a ++ Tok.cl :: b) = 2 + widthT a + 2 + widthT b := by
  rw [widthT_append, widthT_cons, widthT_cons]
  simp only [tokWidth]
  omega

/-- The character-level scan agrees with the token-level scan. -/
theorem braceScan_eq_tokScan (l : List Char) (pos : Nat) (d : Int) :
    braceScan l pos d = tokScan (tokenize l) pos d := by
  induction l, pos, d using braceScan.induct <;>
    simp_all [braceScan, tokenize, tokScan]

/-- Scanning a balanced segment at depth at least 1 neither returns nor
changes the depth: it only advances the position by the segment's width. -/
theorem tokScan_bal_skip {inner : List Tok} (hB : Bal inner) :
    ∀ (ts : List Tok) (pos : Nat) (d : Int), 1 ≤ d →
      tokScan (inner ++ ts) pos d = tokScan ts (pos + widthT inner) d := by
  induction hB with
  | nil => intro ts pos d _; simp [widthT]
  | @chr c ts0 h ih =>
    intro ts pos d hd
    have hstep : (Tok.ch c :: ts0) ++ ts = Tok.ch c :: (ts0 ++ ts) := rfl
    rw [hstep]
    simp only [tokScan]
    rw [ih ts (pos + 1) d hd, widthT_cons]
    have harith : pos + 1 + widthT ts0 =
        pos + (tokWidth (Tok.ch c) + widthT ts0) := by
      simp only [tokWidth]; omega
    rw [harith]
  | @pair t1 t2 h1 h2 ih1 ih2 =>
    intro ts pos d hd
    have hstep : (Tok.op :: t1 ++ Tok.cl :: t2) ++ ts =
        Tok.op :: (t1 ++ (Tok.cl :: (t2 ++ ts))) := by simp
    rw [hstep]
    simp only [tokScan]
    rw [ih1 (Tok.cl :: (t2 ++ ts)) (pos + 2) (d + 1) (by omega)]
    simp only [tokScan]
    rw [if_neg (by omega : ¬ (d + 1 = 1)),
      show d + 1 - 1 = d from by omega,
      ih2 ts (pos + 2 + widthT t1 + 2) d hd]
    have harith : pos + 2 + widthT t1 + 2 + widthT t2 =
        pos + widthT (Tok.op :: t1 ++ Tok.cl :: t2) := by
      rw [widthT_block]
      omega
    rw [harith]

/-- Completeness: whenever the token-level scan started at depth `d ≥ 1`
does not report failure, the stream decomposes as a balanced segment
followed by the closer that is (at depth 1) returned, or (at greater
depth) merely consumed. -/
theorem tokScan_complete (n : Nat) :
    ∀ (ts : List Tok) (pos : Nat) (d : Int), ts.length ≤ n → 1 ≤ d →
      tokScan ts pos d ≠ -1 →
      ∃ inner rest, ts = inner ++ Tok.cl :: rest ∧ Bal inner ∧
        (d = 1 → tokScan ts pos d = ((pos + widthT inner : Nat) : Int)) ∧
        (1 < d → tokScan ts pos d =
          tokScan rest (pos + widthT inner + 2) (d - 1)) := by
  induction n with
  | zero =>
    intro ts pos d hlen _ hne
    have hts : ts = [] := List.length_eq_zero.mp (Nat.le_zero.mp hlen)
    subst hts
    exact absurd rfl hne
  | succ n ih =>
    intro ts pos d hlen hd hne
    cases ts with
    | nil => exact absurd rfl hne
    | cons t ts1 =>
      have hlen1 : ts1.length ≤ n := by
        simp only [List.length_cons] at hlen; omega
      cases t with
      | cl =>
        by_cases h1 : d = 1
        · subst h1
          refine ⟨[], ts1, rfl, Bal.nil, ?_, ?_⟩
          · intro _
            simp [tokScan, widthT]
          · intro hlt; omega
        · refine ⟨[], ts1, rfl, Bal.nil, fun hh => absurd hh h1, ?_⟩
          intro _
          simp only [tokScan, if_neg h1, widthT_nil, Nat.add_zero]
      | ch c =>
        have hne1 : tokScan ts1 (pos + 1) d ≠ -1 := by
          simpa only [tokScan] using hne
        obtain ⟨inner, rest, hdec, hBal, hv1, hv2⟩ :=
          ih ts1 (pos + 1) d hlen1 hd hne1
        refine ⟨Tok.ch c :: inner, rest, by rw [hdec, List.cons_append],
          Bal.chr c hBal, ?_, ?_⟩
        · intro h1
          simp only [tokScan]
          rw [hv1 h1, widthT_cons]
          have harith : pos + 1 + widthT inner =
              pos + (tokWidth (Tok.ch c) + widthT inner) := by
            simp only [tokWidth]; omega
          rw [harith]
        · intro hlt
          simp only [tokScan]
          rw [hv2 hlt, widthT_cons]
          have harith : pos + 1 + widthT inner + 2 =
              pos + (tokWidth (Tok.ch c) + widthT inner) + 2 := by
            simp only [tokWidth]; omega
          rw [harith]
      | op =>
        have hne1 : tokScan ts1 (pos + 2) (d + 1) ≠ -1 := by
          simpa only [tokScan] using hne
        obtain ⟨i1, r1, hdec1, hBal1, hu1, hu2⟩ :=
          ih ts1 (pos + 2) (d + 1) hlen1 (by omega) hne1
        have hstep : tokScan ts1 (pos + 2) (d + 1) =
            tokScan r1 (pos + 2 + widthT i1 + 2) d := by
          have hh := hu2 (by omega)
          rwa [show d + 1 - 1 = d from by omega] at hh
        have hner1 : tokScan r1 (pos + 2 + widthT i1 + 2) d ≠ -1 := by
          rw [← hstep]; exact hne1
        have hlenr1 : r1.length ≤ n := by
          have hl : ts1.length = i1.length + (r1.length + 1) := by
            rw [hdec1]; simp
          omega
        obtain ⟨i2, r2, hdec2, hBal2, hw1, hw2⟩ :=
          ih r1 (pos + 2 + widthT i1 + 2) d hlenr1 hd hner1
        refine ⟨Tok.op :: i1 ++ Tok.cl :: i2, r2, ?_,
          Bal.pair hBal1 hBal2, ?_, ?_⟩
        · rw [hdec1, hdec2]
          simp
        · intro h1
          simp only [tokScan]
          rw [hstep, hw1 h1, widthT_block]
          norm_cast
          omega
        · intro hlt
          simp only [tokScan]
          rw [hstep, hw2 hlt, widthT_block]
          have harith : pos + 2 + widthT i1 + 2 + widthT i2 + 2 =
              pos + (2 + widthT i1 + 2 + widthT i2) + 2 := by omega
          rw [harith]

/-- C3: for every buffer and offset at which `'{{'` opens a block, if the
block is properly balanced then `find_matching_brace` returns the exact
offset of the matching `'}}'` (the opener's offset plus 2 plus the width
of the balanced inner segment), and if the buffer ends before the nesting
depth returns to zero it returns the sentinel `-1` instead of failing. -/
theorem claim_C3_find_matching_brace (text : List Char) (startPos : Nat)
    (ts : List Tok) (h : tokenize (text.drop startPos) = Tok.op :: ts) :
    (∀ inner rest, ts = inner ++ Tok.cl :: rest → Bal inner →
        find_matching_brace text startPos =
          ((startPos + 2 + widthT inner : Nat) : Int)) ∧
    ((∀ inner rest, ts = inner ++ Tok.cl :: rest → ¬ Bal inner) →
        find_matching_brace text startPos = -1) := by
  have hbase : find_matching_brace text startPos =
      tokScan ts (startPos + 2) 1 := by
    rw [find_matching_brace, braceScan_eq_tokScan, h]
    simp only [tokScan, zero_add]
  constructor
  · intro inner rest hdec hBal
    rw [hbase, hdec,
      tokScan_bal_skip hBal (Tok.cl :: rest) (startPos + 2) 1 le_rfl]
    simp [tokScan]
  · intro hno
    rw [hbase]
    by_contra hne
    obtain ⟨inner, rest, hdec, hBal, _, _⟩ :=
      tokScan_complete ts.length ts (startPos + 2) 1 le_rfl (by norm_num) hne
    exact hno inner rest hdec hBal

/-- Witness for C3 at the concrete buffer `"\x7b\x7ba\x7d\x7d"`, whose matching closer
sits at offset 3. -/
theorem claim_C3_find_matching_brace_witness :
    find_matching_brace ("\x7b\x7ba\x7d\x7d".toList) 0 = 3 := by
  have h : tokenize (("\x7b\x7ba\x7d\x7d".toList).drop 0) =
      Tok.op :: [Tok.ch 'a', Tok.cl] := by decide
  have h2 := (claim_C3_find_matching_brace ("\x7b\x7ba\x7d\x7d".toList) 0 _ h).1
    [Tok.ch 'a'] [] rfl (Bal.chr 'a' Bal.nil)
  exact h2.trans (by decide)

/-- C7: `parse_number` strips commas, then returns the upper bound of a
range when a range delimiter is present, otherwise the first contiguous
digit run, and returns `none` (never failing) on empty or non-numeric
input.  Checked by equivalence with the claim-side definition plus
concrete evaluations. -/
theorem claim_C7_parse_number :
    (∀ s : String, parse_number s = parseNumberSpec s) ∧
      parse_number "1,000" = some 1000 ∧
      parse_number "10–20" = some 20 ∧
      parse_number "3-15" = some 15 ∧
      parse_number "" = none ∧
      parse_number "abc" = none := by
  refine ⟨?_, by decide, by decide, by decide, by decide, by decide⟩
  intro s
  unfold parse_number parseNumberSpec
  by_cases hs : s = ""
  · subst hs; decide
  · simp only [hs, if_false]
    cases h : firstDigitRun (s.toList.filter (fun c => c ≠ ',')) <;> simp [h]

/-- C1: the three worked examples of the max-hit parser.  A field table
with `max hit = "30 (Magic), 32 (Ranged)"` parses to magic 30 and ranged
32; `max hit = "47<br/>60 (charge)"` with attack style `melee` parses to
charge 60 and melee 47; `max hit = "15"` with attack style `typeless`
parses to typeless 15. -/
theorem claim_C1_parse_max_hit_examples :
    parse_max_hit [("max hit", "30 (Magic), 32 (Ranged)")] =
        [("magic", 30), ("ranged", 32)] ∧
      parse_max_hit
          [("max hit", "47<br/>60 (charge)"), ("attack style", "melee")] =
        [("charge", 60), ("melee", 47)] ∧
      parse_max_hit [("max hit", "15"), ("attack style", "typeless")] =
        [("typeless", 15)] :=
  ⟨by decide, by decide, by decide⟩

/-- Counterexample to C4 as stated: in the table
`{"max hit": "15 (default), 20 (melee)"}` the `default` entry coexists
with the canonical entry `melee`, yet `parse_max_hit` keeps `default`
(the cleanup also requires a non-blank attack-style descriptor, which is
absent here), instead of removing it as the claim requires. -/
theorem claim_C4_counterexample :
    parse_max_hit [("max hit", "15 (default), 20 (melee)")] =
      [("default", 15), ("melee", 20)] := by decide

/-- C4 (amended): the redistribution runs if and only if a `default`
entry is present, the attack-style descriptor is non-blank and does not
contain `typeless`, and the map has at least two entries; when it runs,
the default value is assigned without overwriting to each canonical style
named in the descriptor and the `default` key is removed; in every other
case — including a `default` entry coexisting with a canonical entry
under a blank descriptor — the map is returned unchanged, `default`
included. -/
theorem claim_C4_default_cleanup_amended (t : List (String × String)) :
    (∀ dv, List.lookup "default" (maxHitsPre t) = some dv →
      (hasStyleB (styleOf t) && !containsS (styleOf t) "typeless" &&
          decide (1 < (maxHitsPre t).length)) = true →
        parse_max_hit t = redistributeDefault (styleOf t) dv (maxHitsPre t)) ∧
    (∀ dv, List.lookup "default" (maxHitsPre t) = some dv →
      (hasStyleB (styleOf t) && !containsS (styleOf t) "typeless" &&
          decide (1 < (maxHitsPre t).length)) = false →
        parse_max_hit t = maxHitsPre t) ∧
    (List.lookup "default" (maxHitsPre t) = none →
        parse_max_hit t = maxHitsPre t) := by
  refine ⟨?_, ?_, ?_⟩
  · intro dv hdv hcond
    unfold parse_max_hit maxHitCleanup redistributeDefault
    rw [hdv]
    simp only [hcond]
    simp
  · intro dv hdv hcond
    unfold parse_max_hit maxHitCleanup
    rw [hdv]
    simp only [hcond]
    simp
  · intro hnone
    unfold parse_max_hit maxHitCleanup
    rw [hnone]

/-- Witness for the amended C4 at the counterexample's table: the
condition is false there (blank descriptor), so the map stays unchanged. -/
theorem claim_C4_default_cleanup_amended_witness :
    parse_max_hit [("max hit", "15 (default), 20 (melee)")] =
      maxHitsPre [("max hit", "15 (default), 20 (melee)")] :=
  (claim_C4_default_cleanup_amended
    [("max hit", "15 (default), 20 (melee)")]).2.1 15 (by decide) (by decide)

theorem attrStep_none {t : List (String × String)} {a : String}
    (h : List.lookup a t = none) (acc : List String) :
    attrStep t acc a = acc := by
  simp [attrStep, h]

theorem attrStep_some {t : List (String × String)} {a : String} {v : String}
    (h : List.lookup a t = some v) (acc : List String) :
    attrStep t acc a =
      if truthyYes v && !acc.contains a then acc ++ [a] else acc := by
  simp [attrStep, h]

theorem attrTruthy_none {t : List (String × String)} {a : String}
    (h : List.lookup a t = none) : attrTruthy t a = false := by
  simp [attrTruthy, h]

theorem attrTruthy_some {t : List (String × String)} {a : String} {v : String}
    (h : List.lookup a t = some v) : attrTruthy t a = truthyYes v := by
  simp [attrTruthy, h]

/-- The flag-appending fold of `parse_attributes`, characterized as a
filter: membership tests against the accumulator agree with tests against
the free-text part as long as the remaining flag names are distinct and
absent from the already-appended extras. -/
theorem attrFold_eq_filter (t : List (String × String)) :
    ∀ (ks : List String) (acc : List String), ks.Nodup →
      (∀ a ∈ ks, acc.contains a = (freeAttrParts t).contains a) →
      ks.foldl (attrStep t) acc =
        acc ++ ks.filter (fun a =>
          attrTruthy t a && !(freeAttrParts t).contains a) := by
  intro ks
  induction ks with
  | nil => intro acc _ _; simp
  | cons a ks ih =>
    intro acc hnd hmem
    have hand := List.nodup_cons.mp hnd
    have hacc : acc.contains a = (freeAttrParts t).contains a :=
      hmem a (List.mem_cons_self a ks)
    rw [List.foldl_cons, List.filter_cons]
    cases hlook : List.lookup a t with
    | none =>
      rw [attrStep_none hlook, attrTruthy_none hlook,
        ih acc hand.2 (fun b hb => hmem b (List.mem_cons_of_mem a hb))]
      simp
    | some v =>
      rw [attrStep_some hlook, attrTruthy_some hlook]
      by_cases htr : truthyYes v = true
      · by_cases hfree : (freeAttrParts t).contains a = true
        · have hcond : (truthyYes v && !acc.contains a) = false := by
            rw [hacc, hfree]; simp
          rw [hcond]
          simp only [Bool.false_eq_true, if_false]
          rw [ih acc hand.2 (fun b hb => hmem b (List.mem_cons_of_mem a hb))]
          have hfc : (truthyYes v && !(freeAttrParts t).contains a) = false := by
            rw [hfree]; simp
          rw [hfc]
          simp
        · have hfree2 : (freeAttrParts t).contains a = false :=
            Bool.not_eq_true _ ▸ Bool.of_not_eq_true hfree
          have hcond : (truthyYes v && !acc.contains a) = true := by
            rw [hacc, hfree2, htr]; simp
          rw [hcond]
          simp only [if_true]
          have hmem2 : ∀ b ∈ ks, (acc ++ [a]).contains b =
              (freeAttrParts t).contains b := by
            intro b hb
            have hba : b ≠ a := fun he => hand.1 (he ▸ hb)
            have h1 : (acc ++ [a]).contains b =
                (acc.contains b || ([a] : List String).contains b) := by
              simp
            have h2 : ([a] : List String).contains b = false := by
              simp [hba]
            rw [h1, h2, Bool.or_false]
            exact hmem b (List.mem_cons_of_mem a hb)
          rw [ih (acc ++ [a]) hand.2 hmem2]
          have hfc : (truthyYes v && !(freeAttrParts t).contains a) = true := by
            rw [hfree2, htr]; simp
          rw [hfc]
          simp
      · have htr2 : truthyYes v = false :=
          Bool.not_eq_true _ ▸ Bool.of_not_eq_true htr
        have hcond : (truthyYes v && !acc.contains a) = false := by
          rw [htr2]; simp
        rw [hcond]
        simp only [Bool.false_eq_true, if_false]
        rw [ih acc hand.2 (fun b hb => hmem b (List.mem_cons_of_mem a hb))]
        have hfc : (truthyYes v && !(freeAttrParts t).contains a) = false := by
          rw [htr2]; simp
        rw [hfc]
        simp

/-- C10 (amended): `parse_attributes` returns the comma-split values of
the free-text attribute fields — duplicates retained, not de-duplicated —
followed by the known boolean flags whose value is truthy and which do
not already occur among those values, in first-appearance order. -/
theorem claim_C10_parse_attributes_amended (t : List (String × String)) :
    parse_attributes t = attributesSpec t := by
  unfold parse_attributes attributesSpec
  exact attrFold_eq_filter t knownAttributes (freeAttrParts t)
    (by decide) (fun a _ => rfl)

/-- Counterexample to C10 as stated: the free-text field
`attributes = "demon, demon"` yields the duplicated list
`["demon", "demon"]`, so the result is not de-duplicated. -/
theorem claim_C10_counterexample :
    parse_attributes [("attributes", "demon, demon")] = ["demon", "demon"] ∧
      ¬ (parse_attributes [("attributes", "demon, demon")]).Nodup :=
  ⟨by decide, by decide⟩

theorem PyResult.map_eq_ok {α β : Type} {f : α → β} {x : PyResult α}
    {b : β} : x.map f = PyResult.ok b ↔ ∃ a, x = PyResult.ok a ∧ f a = b := by
  cases x <;> simp [PyResult.map]

/-- C5: every record emitted by `extract_npc_data` carries a non-empty
`maxHit` map — a version whose parsed max-hit map is empty is skipped
(and a page on which the extraction raises emits no records at all). -/
theorem claim_C5_nonempty_maxhit (title : String) (text : List Char)
    (rs : List (List (String × Val))) (r : List (String × Val))
    (hok : extract_npc_data title text = PyResult.ok rs) (hr : r ∈ rs) :
    ∃ m, ("maxHit", Val.vmap m) ∈ r ∧ m ≠ [] := by
  unfold extract_npc_data extract_npc_data_with at hok
  obtain ⟨ibs, hmon, hfa⟩ := PyResult.map_eq_ok.mp hok
  rw [← hfa] at hr
  obtain ⟨ib, hib, hv⟩ := List.mem_flatMap.mp hr
  obtain ⟨vd, hvd, he⟩ := List.mem_filterMap.mp hv
  simp only [emitRecord] at he
  by_cases hmh : (parse_max_hit (strFields vd)).isEmpty = true
  · rw [if_pos hmh] at he
    exact absurd he (by simp)
  · rw [if_neg hmh] at he
    have hre := Option.some.inj he
    subst hre
    refine ⟨parse_max_hit (strFields vd), ?_, ?_⟩
    · apply List.mem_filter.mpr
      refine ⟨?_, rfl⟩
      simp [npcFields]
    · intro hnil
      exact hmh (by rw [hnil]; rfl)

/-- Witness for C5 at the sample page, whose single record's map is
`\{default: 5\}`. -/
theorem claim_C5_nonempty_maxhit_witness :
    ∃ m, ("maxHit", Val.vmap m) ∈ sampleRecord ∧ m ≠ [] :=
  claim_C5_nonempty_maxhit "T" sampleText [sampleRecord] sampleRecord
    (by decide) (by decide)

/-- C6 states the spec's intent (no condition inside the core is fatal),
and the code breaks it: the guard `key[7:].isdigit()` at source line 288
admits non-decimal digit characters such as the superscript two, on
which `int(key[7:])` at line 289 raises `ValueError`; nothing inside the
core catches it, so `parse_infobox_monster` and `extract_npc_data` abort
on `crashText` instead of returning a list.  Markerless and
unmatched-opener pages do return empty results, as the claim says. -/
theorem claim_C6_core_raises_on_nondecimal_suffix :
    parse_infobox_monster crashText = PyResult.exn ∧
      extract_npc_data "T" crashText = PyResult.exn ∧
      parse_infobox_monster ("Just some plain text".toList) =
        PyResult.ok [] ∧
      extract_npc_data "T" ("Just some plain text".toList) =
        PyResult.ok [] ∧
      parse_infobox_monster malformedText = PyResult.ok [] ∧
      extract_npc_data "T" malformedText = PyResult.ok [] := by decide

/-- Counterexample to C8 as stated: the sample page's record keeps
`attributes = []` (and the all-false `immunities` dict), because the
cleaning test `v is not None and v != ''` is true for every container —
the code's own comment says "but keep empty lists/dicts" — whereas the
claim requires empty containers to be omitted. -/
theorem claim_C8_counterexample :
    extract_npc_data "T" sampleText =
      PyResult.ok
        [[("name", Val.vstr "T - Default"),
          ("baseName", Val.vstr "T"),
          ("version", Val.vstr "Default"),
          ("maxHit", Val.vmap [("default", 5)]),
          ("minHit", Val.vmap [("default", 0)]),
          ("aggressive", Val.vbool false),
          ("poisonous", Val.vbool false),
          ("attributes", Val.vlist []),
          ("immunities", Val.vflags [("poison", false), ("venom", false),
            ("cannon", false), ("thrall", false)]),
          ("wikiPage", Val.vstr "T")]] := by decide

/-- C8 (amended): a field is omitted from an emitted record exactly when
its value is absent (`None`) or the empty string; all other fields —
including empty containers and `False` booleans — are kept.  Stated as
the filter characterization of the cleaning step plus the pipeline-level
guarantee that no emitted record holds a `None` or empty-string value. -/
theorem claim_C8_field_omission_amended :
    (∀ (l : List (String × Val)) (kv : String × Val),
        kv ∈ cleanFields l ↔ kv ∈ l ∧ keepField kv.2 = true) ∧
    (∀ (title : String) (text : List Char)
        (rs : List (List (String × Val))) (r : List (String × Val))
        (kv : String × Val), extract_npc_data title text = PyResult.ok rs →
      r ∈ rs → kv ∈ r → kv.2 ≠ Val.vnone ∧ kv.2 ≠ Val.vstr "") := by
  constructor
  · intro l kv
    simp [cleanFields, List.mem_filter]
  · intro title text rs r kv hok hr hkv
    unfold extract_npc_data extract_npc_data_with at hok
    obtain ⟨ibs, hmon, hfa⟩ := PyResult.map_eq_ok.mp hok
    rw [← hfa] at hr
    obtain ⟨ib, hib, hv⟩ := List.mem_flatMap.mp hr
    obtain ⟨vd, hvd, he⟩ := List.mem_filterMap.mp hv
    simp only [emitRecord] at he
    by_cases hmh : (parse_max_hit (strFields vd)).isEmpty = true
    · rw [if_pos hmh] at he
      exact absurd he (by simp)
    · rw [if_neg hmh] at he
      have hre := Option.some.inj he
      subst hre
      unfold cleanFields at hkv
      have hk : keepField kv.2 = true := (List.mem_filter.mp hkv).2
      constructor
      · intro hbad
        rw [hbad] at hk
        exact absurd hk (by decide)
      · intro hbad
        rw [hbad] at hk
        exact absurd hk (by decide)

/-- Witness for the amended C8 at the kept empty-attributes field of the
sample record. -/
theorem claim_C8_field_omission_amended_witness :
    Val.vlist [] ≠ Val.vnone ∧ Val.vlist [] ≠ Val.vstr "" :=
  claim_C8_field_omission_amended.2 "T" sampleText [sampleRecord]
    sampleRecord ("attributes", Val.vlist []) (by decide) (by decide)
    (by decide)

/-- C9: the pipeline is deterministic.  The only unspecified evaluation
order in the source is the iteration over the `version_numbers` set,
which `sorted` canonicalizes: for every enumeration (any permutation) of
that set, `extract_npc_data` returns the identical outcome — the same
records, or the same exception — and identical identity keys. -/
theorem claim_C9_determinism (reorder : List Nat → List Nat)
    (hperm : ∀ l, List.Perm (reorder l) l) (title : String)
    (text : List Char) :
    extract_npc_data_with reorder title text = extract_npc_data title text ∧
      (extract_npc_data_with reorder title text).map
          (fun rs => rs.map (uniqueKey title)) =
        (extract_npc_data title text).map
          (fun rs => rs.map (uniqueKey title)) := by
  have hnums : ∀ raw, versionNumsWithE reorder raw =
      versionNumsWithE id raw := by
    intro raw
    unfold versionNumsWithE
    cases hc : collectNumsE raw with
    | none => rfl
    | some l =>
      simp only [Option.map_some']
      have hs : List.insertionSort (· ≤ ·) (reorder l.dedup) =
          List.insertionSort (· ≤ ·) (id l.dedup) := by
        refine List.eq_of_perm_of_sorted ?_ (List.sorted_insertionSort _ _)
          (List.sorted_insertionSort _ _)
        have h1 : List.Perm
            (List.insertionSort (· ≤ ·) (reorder l.dedup)) l.dedup :=
          (List.perm_insertionSort _ _).trans (hperm _)
        have h2 : List.Perm
            (List.insertionSort (· ≤ ·) (id l.dedup)) l.dedup :=
          List.perm_insertionSort _ _
        exact h1.trans h2.symm
      rw [hs]
  have hvers : ∀ raw, versionsOfTableWithE reorder raw =
      versionsOfTableWithE id raw := by
    intro raw
    unfold versionsOfTableWithE
    rw [hnums]
  have hcontent : ∀ content phase, parse_infobox_content_with reorder
      content phase = parse_infobox_content_with id content phase := by
    intro content phase
    unfold parse_infobox_content_with
    simp only [hvers]
  have hitem : ∀ mc texts items i itm,
      processItem reorder mc texts items i itm =
        processItem id mc texts items i itm := by
    intro mc texts items i itm
    unfold processItem
    simp only [hcontent]
  have hcollect : ∀ mc texts items ps,
      collectItems reorder mc texts items ps =
        collectItems id mc texts items ps := by
    intro mc texts items ps
    induction ps with
    | nil => rfl
    | cons p rest ih =>
      simp only [collectItems, hitem, ih]
  have hstep : ∀ pos rec rec', (∀ p, rec p = rec' p) →
      standaloneStep reorder text pos rec =
        standaloneStep id text pos rec' := by
    intro pos rec rec' hrec
    unfold standaloneStep
    cases hfind : findCI infoboxMarker (text.drop pos) with
    | none => simp only [hfind]
    | some off =>
      simp only [hfind]
      split_ifs with he
      · rfl
      · simp only [hcontent, hrec]
  have hscan : ∀ fuel pos, standaloneScan reorder text fuel pos =
      standaloneScan id text fuel pos := by
    intro fuel
    induction fuel with
    | zero => intro pos; rfl
    | succ n ih =>
      intro pos
      simp only [standaloneScan]
      exact hstep pos _ _ ih
  have hmonster : parse_infobox_monster_with reorder text =
      parse_infobox_monster_with id text := by
    unfold parse_infobox_monster_with
    cases hfind : findCI multiMarker text with
    | none =>
      simp only [hfind]
      exact hscan _ _
    | some m =>
      simp only [hfind]
      split_ifs with he
      · rfl
      · exact hcollect _ _ _ _
  constructor
  · unfold extract_npc_data extract_npc_data_with
    rw [hmonster]
  · unfold extract_npc_data extract_npc_data_with
    rw [hmonster]

/-- Witness for C9: reversing the set-enumeration order changes nothing
on the sample page. -/
theorem claim_C9_determinism_witness :
    extract_npc_data_with List.reverse "T" sampleText =
      extract_npc_data "T" sampleText :=
  (claim_C9_determinism List.reverse (fun l => List.reverse_perm l) "T"
    sampleText).1

end OSRS
